import Mathlib

set_option maxRecDepth 4000

/-!
Verification of the nightskyrunner supervisor runtime specification.

The library package itself is not present in the repository snapshot (only its
test suite and a demo are), so every definition below is modelled from the
specification document, faithful to its words, and cross-checked against the
behaviour asserted by the test suite.
-/

namespace NightSkyRunner

/-! ## Configuration values -/

/-- Modelled from the spec: a configuration value is a recursively nested
mapping from string keys to scalars (integer, boolean, string) or further
nested mappings or ordered sequences; a leaf may also be a partially-applied
callable, modelled as a tagged value carrying the target identifier and the
bound-prefix arguments (spec design note on the mapping comparator). -/
inductive Value where
  | vint  (n : Int)
  | vstr  (s : String)
  | vbool (b : Bool)
  | vseq  (xs : List Value)
  | vmap  (kvs : List (String × Value))
  | vcall (target : String) (bound : List Value)

/-- Association-list lookup by string key (first match wins), the model of
reading one key of a mapping. -/
def alistLookup {α : Type} : List (String × α) → String → Option α
  | [], _ => none
  | (k, v) :: rest, key => if k = key then some v else alistLookup rest key

/-- Entries of a mapping value (empty for non-mappings). -/
def entriesOf : Value → List (String × Value)
  | .vmap kvs => kvs
  | _ => []

/-! ## Deep merge (Config Provider override, claim C6) -/

mutual
/-- Modelled from the spec: deep merge of a base configuration with an
override configuration; the override wins at every leaf and merging recurses
into nested mappings.  Non-mapping positions are simply replaced by the
override. -/
def deepMerge : Value → Value → Value
  | .vmap base, .vmap over =>
      .vmap (mergeEntries base over
        ++ over.filter (fun kv => (alistLookup base kv.1).isNone))
  | _, over => over

/-- Merge each base entry with the override entry of the same key, if any. -/
def mergeEntries : List (String × Value) → List (String × Value) → List (String × Value)
  | [], _ => []
  | (k, v) :: rest, over =>
      (k, match alistLookup over k with
          | some w => deepMerge v w
          | none => v) :: mergeEntries rest over
end

/-- Modelled from the spec: a Fixed config Provider returns its stored
mapping, optionally deep-merged with an override mapping. -/
def fixedDictGet (base : Value) (override : Option Value) : Value :=
  match override with
  | none => base
  | some o => deepMerge base o

theorem alistLookup_append {α : Type} (l1 l2 : List (String × α)) (k : String) :
    alistLookup (l1 ++ l2) k =
      match alistLookup l1 k with
      | some v => some v
      | none => alistLookup l2 k := by
  induction l1 with
  | nil => simp [alistLookup]
  | cons p rest ih =>
      obtain ⟨k', v⟩ := p
      by_cases h : k' = k <;> simp [alistLookup, h, ih]

theorem alistLookup_filter {α : Type} (l : List (String × α)) (pred : String → Bool) (k : String) :
    alistLookup (l.filter (fun kv => pred kv.1)) k =
      if pred k then alistLookup l k else none := by
  induction l with
  | nil => simp [alistLookup]
  | cons p rest ih =>
      obtain ⟨k', v⟩ := p
      by_cases hk : k' = k
      · subst hk
        by_cases hp : pred k' <;> simp [alistLookup, hp, ih]
      · by_cases hp : pred k' <;> simp [alistLookup, hp, hk, ih]

theorem alistLookup_mergeEntries (base over : List (String × Value)) (k : String) :
    alistLookup (mergeEntries base over) k =
      (alistLookup base k).map (fun v =>
        match alistLookup over k with
        | some w => deepMerge v w
        | none => v) := by
  induction base with
  | nil => simp [mergeEntries, alistLookup]
  | cons p rest ih =>
      obtain ⟨k', v⟩ := p
      by_cases h : k' = k <;> simp [mergeEntries, alistLookup, h, ih]

/-- Claim C6: for a Provider built with a base mapping and an override
mapping, `get()` returns the deep merge in which the override wins at every
key (recursing into nested mappings: when both sides hold mappings the merge
recurses, otherwise the override leaf replaces the base leaf), and concretely
base `{a:1, b:10, c:{c1:-1, c2:3}}` with override `{a:2, c:{c1:4}}` yields
`{a:2, b:10, c:{c1:4, c2:3}}`. -/
theorem claim_C6 :
    (∀ (base over : List (String × Value)) (k : String),
      alistLookup (entriesOf (fixedDictGet (.vmap base) (some (.vmap over)))) k =
        match alistLookup base k, alistLookup over k with
        | some v, some w => some (deepMerge v w)
        | some v, none => some v
        | none, ow => ow)
    ∧ fixedDictGet
        (.vmap [("a", .vint 1), ("b", .vint 10),
                ("c", .vmap [("c1", .vint (-1)), ("c2", .vint 3)])])
        (some (.vmap [("a", .vint 2), ("c", .vmap [("c1", .vint 4)])]))
      = .vmap [("a", .vint 2), ("b", .vint 10),
               ("c", .vmap [("c1", .vint 4), ("c2", .vint 3)])] := by
  constructor
  · intro base over k
    show alistLookup (entriesOf (deepMerge (.vmap base) (.vmap over))) k = _
    rw [deepMerge]
    show alistLookup (mergeEntries base over ++ _) k = _
    rw [alistLookup_append, alistLookup_mergeEntries,
        alistLookup_filter over (fun k => (alistLookup base k).isNone) k]
    cases hb : alistLookup base k <;> cases ho : alistLookup over k <;>
      simp [hb, ho]
  · rfl

/-! ## Runner lifecycle state and Status records -/

/-- Modelled from the spec: the runner lifecycle state, one of
starting, running, stopping, off, error. -/
inductive State where
  | starting
  | running
  | stopping
  | off
  | error
deriving DecidableEq, BEq, Repr

/-- Modelled from the spec: a current/previous message pair, used for both
the `error` and the `issue` fields of a status record. -/
structure MsgSlot where
  message  : Option String := none
  previous : Option String := none
deriving DecidableEq, Repr

/-- Modelled from the spec: the status record of one runner.  `runningSince`
is the `running_for` baseline: the wall-clock instant at which the state last
transitioned into `running`, or absent. -/
structure StatusData where
  state        : State := State.off
  error        : MsgSlot := {}
  issue        : MsgSlot := {}
  runningSince : Option Nat := none
deriving DecidableEq, Repr

/-- When a message slot is vacated, any present message is moved to
`previous` and cleared. -/
def shiftSlot (slot : MsgSlot) : MsgSlot :=
  match slot.message with
  | some m => { message := none, previous := some m }
  | none => slot

/-- Modelled from the spec: `Status.state(new_state, error=None)` — updates
`state`; if entering `error`, stores `error.message`; if leaving `error`,
moves any `error.message` to `error.previous` and clears it; updates the
`running_for` baseline when entering `running` and clears it when leaving. -/
def setState (now : Nat) (s : StatusData) (new : State) (err : Option String) : StatusData :=
  let e :=
    if new = State.error then { s.error with message := err }
    else if s.state = State.error then shiftSlot s.error
    else s.error
  let rs :=
    if new = State.running then
      (if s.state = State.running then s.runningSince else some now)
    else none
  { s with state := new, error := e, runningSince := rs }

/-- Modelled from the spec: `set_issue(msg)` — stores the issue message,
independently of `state`. -/
def setIssue (s : StatusData) (msg : String) : StatusData :=
  { s with issue := { s.issue with message := some msg } }

/-- Modelled from the spec: `remove_issue()` — clears the issue message,
moving any present message to `issue.previous`, independently of `state`. -/
def removeIssue (s : StatusData) : StatusData :=
  { s with issue := shiftSlot s.issue }

/-- Modelled from the spec: `get()` reports `running_for` computed as
`now - running_since` when applicable, else absent. -/
def runningFor (now : Nat) (s : StatusData) : Option Nat :=
  s.runningSince.map (fun t => now - t)

/-- Claim C5: whenever `state` equals `error`, `error.message` is present
(preserved by every transition whose entry into `error` supplies a message,
as the harness always does); whenever `state` leaves `error`, the message is
cleared and its prior value is copied to `error.previous`; entering `error`
again overwrites the message but leaves `previous` intact; the identical
current/previous rule governs `issue` via `set_issue`/`remove_issue`,
independently of `state`. -/
theorem claim_C5 (now : Nat) (s : StatusData) (new : State) (err : Option String) (m : String) :
    (new = State.error →
        (setState now s new err).error.message = err
        ∧ (setState now s new err).error.previous = s.error.previous)
    ∧ (s.state = State.error → new ≠ State.error → s.error.message = some m →
        (setState now s new err).error.message = none
        ∧ (setState now s new err).error.previous = some m)
    ∧ ((s.state = State.error → s.error.message.isSome)
        → (new = State.error → err.isSome)
        → ((setState now s new err).state = State.error
            → (setState now s new err).error.message.isSome))
    ∧ ((setIssue s m).issue.message = some m
        ∧ (setIssue s m).issue.previous = s.issue.previous
        ∧ (setIssue s m).state = s.state)
    ∧ (s.issue.message = some m →
        (removeIssue s).issue.message = none
        ∧ (removeIssue s).issue.previous = some m
        ∧ (removeIssue s).state = s.state) := by
  refine ⟨fun hnew => ?_, fun hold hnew hmsg => ?_, fun hinv hsup hst => ?_, ?_, fun hmsg => ?_⟩
  · simp [setState, hnew]
  · simp [setState, hnew, hold, shiftSlot, hmsg]
  · by_cases hnew : new = State.error
    · simpa [setState, hnew] using hsup hnew
    · simp [setState, hnew] at hst
  · simp [setIssue]
  · simp [removeIssue, shiftSlot, hmsg]

/-- A concrete status record in state `error` with a pending error message
and a pending issue message, used to witness claim C5. -/
def sampleStatus : StatusData :=
  { state := State.error
    error := { message := some "m1" }
    issue := { message := some "m1" } }

/-- Witness for claim C5 at a concrete status record and transition. -/
theorem claim_C5_witness :
    (setState 7 sampleStatus State.running none).error.message = none
    ∧ (setState 7 sampleStatus State.running none).error.previous = some "m1"
    ∧ (setIssue sampleStatus "m1").issue.message = some "m1"
    ∧ (removeIssue sampleStatus).issue.message = none
    ∧ (removeIssue sampleStatus).issue.previous = some "m1" := by
  have h := claim_C5 7 sampleStatus State.running none "m1"
  obtain ⟨-, h2, -, h4, h5⟩ := h
  have h2' := h2 rfl (by decide) rfl
  have h5' := h5 rfl
  exact ⟨h2'.1, h2'.2, h4.1, h5'.1, h5'.2.1⟩

/-! ## Runner harness (claims C1 and C4) -/

/-- Modelled from the spec: runners come in Thread and Process flavors with
an identical lifecycle contract. -/
inductive Flavor where
  | thread
  | process
deriving DecidableEq, Repr

/-- Modelled from the spec: the outcome of one user `iterate()` call — either
it returns normally or it raises an exception carrying a message. -/
inductive IterOutcome where
  | ok
  | raises (msg : String)
deriving DecidableEq, Repr

/-- The harness-visible state of one runner: its status record and whether
its worker loop is still live. -/
structure RunnerSt where
  flavor    : Flavor
  status    : StatusData
  loopAlive : Bool
deriving DecidableEq, Repr

/-- Modelled from the spec: one pass of the lifecycle harness around the user
`iterate()` step.  A successful iterate moves (or keeps) the status in
`running`.  Any exception from `iterate()` is caught by the harness: the
status becomes `error` with the exception message stored, and the loop stops.
The function is total and returns a `RunnerSt` (never an exception), which is
the model of "no exception escapes to the caller". -/
def harnessIterate (now : Nat) (r : RunnerSt) (out : IterOutcome) : RunnerSt :=
  match out with
  | .ok => { r with status := setState now r.status State.running none }
  | .raises msg =>
      { r with status := setState now r.status State.error (some msg), loopAlive := false }

/-- Modelled from the spec: `revive()` — only valid from `error`; spawns a
fresh worker, moving the state back to `starting` (the next successful
iterate then moves it to `running`). -/
def revive (now : Nat) (r : RunnerSt) : RunnerSt :=
  if r.status.state = State.error then
    { r with status := setState now r.status State.starting none, loopAlive := true }
  else r

/-- Claim C1: for every runner (either flavor) whose `iterate()` raises, the
harness catches it: the status state becomes `error` with the exception
message stored as `error.message`, the loop stops, no exception escapes (the
harness step is a total function into `RunnerSt`), and a subsequent
`revive()` followed by a successful iterate (the cause being gone) brings the
state back to `running`. -/
theorem claim_C1 (t1 t2 t3 : Nat) (r : RunnerSt) (msg : String)
    (hrun : r.status.state = State.running) :
    ((harnessIterate t1 r (.raises msg)).status.state = State.error
      ∧ (harnessIterate t1 r (.raises msg)).status.error.message = some msg
      ∧ (harnessIterate t1 r (.raises msg)).loopAlive = false
      ∧ (harnessIterate t1 r (.raises msg)).flavor = r.flavor)
    ∧ ((harnessIterate t3 (revive t2 (harnessIterate t1 r (.raises msg))) .ok).status.state
        = State.running
      ∧ (harnessIterate t3 (revive t2 (harnessIterate t1 r (.raises msg))) .ok).loopAlive
        = true) := by
  refine ⟨⟨?_, ?_, rfl, rfl⟩, ?_, ?_⟩ <;>
    simp [harnessIterate, revive, setState, hrun]

/-- Witness for claim C1: a concrete running thread runner hit by an
exception, then revived. -/
theorem claim_C1_witness :
    (let r : RunnerSt :=
      { flavor := Flavor.thread
        status := { state := State.running, runningSince := some 0 }
        loopAlive := true }
     ((harnessIterate 1 r (.raises "boom")).status.state = State.error
      ∧ (harnessIterate 1 r (.raises "boom")).status.error.message = some "boom"
      ∧ (harnessIterate 1 r (.raises "boom")).loopAlive = false
      ∧ (harnessIterate 1 r (.raises "boom")).flavor = r.flavor)
    ∧ ((harnessIterate 3 (revive 2 (harnessIterate 1 r (.raises "boom"))) .ok).status.state
        = State.running
      ∧ (harnessIterate 3 (revive 2 (harnessIterate 1 r (.raises "boom"))) .ok).loopAlive
        = true)) :=
  claim_C1 1 2 3
    { flavor := Flavor.thread
      status := { state := State.running, runningSince := some 0 }
      loopAlive := true }
    "boom" rfl

/-- Concrete counterexample to claim C4 as stated.  A runner enters
`running` at time 0, errors at time 10 (having been running for 10 seconds),
is revived at time 12 and re-enters `running` at time 12.  Observed at time
13, `running_for` is 1: the baseline was reset at re-entry into `running`,
so total running time does not accumulate across revives (the accumulation
reading would predict at least 10 + 1 = 11).  This matches the repository's
own test `test_running_for` (src/tests/test_runner.py), which asserts that
after a revive and a 0.2 s window `running_for` is below 0.4 even though the
runner had already been running for more than 0.2 s before the error. -/
theorem claim_C4_counterexample :
    runningFor 10 (setState 0 {} State.running none) = some 10
    ∧ runningFor 13
        (setState 12
          (setState 12
            (setState 10 (setState 0 {} State.running none) State.error (some "boom"))
            State.starting none)
          State.running none)
      = some 1
    ∧ ¬ (10 + 1 ≤ 1) := by
  refine ⟨rfl, rfl, by decide⟩

/-- Claim C4 (amended): after `revive()`, the `running_for` baseline is reset
when the runner re-enters `running` (total running time does not accumulate
across revives); `running_for` observed after the revive is present (never
absent), equals the wall time since re-entering `running`, and grows with
wall time. -/
theorem claim_C4 (tErr tRev tRun tObs tObs' : Nat) (s : StatusData) (msg : String)
    (hrun : s.state = State.running) (h1 : tRun ≤ tObs) (h2 : tObs ≤ tObs') :
    (runningFor tObs
        (setState tRun
          (setState tRev (setState tErr s State.error (some msg)) State.starting none)
          State.running none)
      = some (tObs - tRun))
    ∧ (runningFor tObs
        (setState tRun
          (setState tRev (setState tErr s State.error (some msg)) State.starting none)
          State.running none)).isSome = true
    ∧ tObs - tRun ≤ tObs' - tRun := by
  refine ⟨?_, ?_, Nat.sub_le_sub_right h2 tRun⟩ <;>
    simp [setState, runningFor]

/-- Witness for claim C4 (amended) at concrete instants. -/
theorem claim_C4_witness :
    (runningFor 13
        (setState 12
          (setState 12
            (setState 10 { state := State.running, runningSince := some 0 }
              State.error (some "boom"))
            State.starting none)
          State.running none)
      = some (13 - 12))
    ∧ (runningFor 13
        (setState 12
          (setState 12
            (setState 10 { state := State.running, runningSince := some 0 }
              State.error (some "boom"))
            State.starting none)
          State.running none)).isSome = true
    ∧ 13 - 12 ≤ 14 - 12 :=
  claim_C4 10 12 12 13 14 { state := State.running, runningSince := some 0 } "boom"
    rfl (by decide) (by decide)

/-! ## Dynamic file-backed Config Provider (claim C8) -/

/-- Modelled from the spec: a configuration file on disk, with its parsed
content and its modification time. -/
structure TomlFile where
  content : Value
  mtime   : Nat

/-- Modelled from the spec: the state of a DynamicTomlConfigGetter — the
configuration read last and the modification time observed at that read. -/
structure DynGetter where
  cached    : Value
  lastMtime : Nat

/-- Modelled from the spec: Dynamic file-backed `get()` — re-reads the file
exactly when its modification time has changed since the last read; `get()`
is the point at which the check and reload happen. -/
def dynamicGet (f : TomlFile) (g : DynGetter) : Value × DynGetter :=
  if f.mtime ≠ g.lastMtime then (f.content, ⟨f.content, f.mtime⟩)
  else (g.cached, g)

/-- Modelled from the spec: changing the backing file's content advances its
modification time. -/
def writeFile (f : TomlFile) (new : Value) : TomlFile :=
  ⟨new, f.mtime + 1⟩

/-- Claim C8: for a dynamic file-backed Provider, after the backing file's
content changes, the next `get()` returns the new content (the re-read is
triggered at `get()` by the changed modification time); when the modification
time is unchanged, `get()` returns the cached configuration unchanged
(callers drive the polling). -/
theorem claim_C8 (f : TomlFile) (g : DynGetter) (new : Value)
    (hsync : g.lastMtime = f.mtime) :
    (dynamicGet (writeFile f new) g).1 = new
    ∧ dynamicGet f g = (g.cached, g) := by
  constructor
  · simp [dynamicGet, writeFile, hsync]
  · simp [dynamicGet, hsync]

/-- Witness for claim C8 at a concrete file and getter state. -/
theorem claim_C8_witness :
    (dynamicGet (writeFile ⟨.vint 1, 5⟩ (.vint 2)) ⟨.vint 1, 5⟩).1 = .vint 2
    ∧ dynamicGet ⟨.vint 1, 5⟩ ⟨.vint 1, 5⟩ = (.vint 1, ⟨.vint 1, 5⟩) :=
  claim_C8 ⟨.vint 1, 5⟩ ⟨.vint 1, 5⟩ (.vint 2) rfl

/-! ## status_error enforcement (claim C9) -/

/-- Modelled from the spec: what the harness sees of a concrete runner class
— its name and whether it has been marked with the `status_error` wrapper. -/
structure RunnerClass where
  className : String
  statusErrorWrapped : Bool
deriving DecidableEq, Repr

/-- Modelled from the spec: defining a concrete runner class is always
possible — the `status_error` structural check does not run at class
definition time. -/
def defineRunnerClass (n : String) (wrapped : Bool) : RunnerClass :=
  ⟨n, wrapped⟩

/-- The type error surfaced when constructing an unwrapped runner class. -/
inductive ConstructError where
  | typeError (msg : String)
deriving DecidableEq, Repr

/-- A successfully constructed (not-yet-started) runner instance. -/
structure RunnerInstance where
  instOf : String
deriving DecidableEq, Repr

/-- Modelled from the spec: constructing a runner instance performs the
structural check at instantiation — a concrete runner class that has not
been marked with the `status_error` wrapper fails with a type error. -/
def instantiateRunner (c : RunnerClass) : Except ConstructError RunnerInstance :=
  if c.statusErrorWrapped then Except.ok ⟨c.className⟩
  else Except.error (ConstructError.typeError "runner class not wrapped with status_error")

/-- Claim C9: constructing any concrete runner class that has not been
wrapped with the `status_error` decorator fails with a type error, while a
wrapped class constructs successfully; the check happens at instantiation —
defining the class itself (for any name, wrapped or not) succeeds
unconditionally, as `defineRunnerClass` is a total function. -/
theorem claim_C9 (n : String) :
    defineRunnerClass n false = ⟨n, false⟩
    ∧ instantiateRunner (defineRunnerClass n false)
        = Except.error (ConstructError.typeError "runner class not wrapped with status_error")
    ∧ (∀ c : RunnerClass, c.statusErrorWrapped = true →
        instantiateRunner c = Except.ok ⟨c.className⟩) := by
  refine ⟨rfl, rfl, fun c hc => ?_⟩
  simp [instantiateRunner, hc]

/-- Witness for claim C9 at a concrete class name. -/
theorem claim_C9_witness :
    defineRunnerClass "NotDecoratedRunner" false = ⟨"NotDecoratedRunner", false⟩
    ∧ instantiateRunner (defineRunnerClass "NotDecoratedRunner" false)
        = Except.error (ConstructError.typeError "runner class not wrapped with status_error")
    ∧ (∀ c : RunnerClass, c.statusErrorWrapped = true →
        instantiateRunner c = Except.ok ⟨c.className⟩) :=
  claim_C9 "NotDecoratedRunner"

/-! ## Shared memory (claim C10) -/

/-- One shared-memory record: a mutable mapping from string keys to values. -/
abbrev Record := List (String × Value)

/-- The process-wide registry of named records. -/
abbrev Registry := List (String × Record)

/-- Modelled from the spec: `SharedMemory.get(name)` — returns the record,
creating an empty one on first access (idempotent; writes never raise). -/
def smGet (reg : Registry) (name : String) : Record × Registry :=
  match alistLookup reg name with
  | some r => (r, reg)
  | none => ([], (name, []) :: reg)

/-- Reading a key raises a key error when absent. -/
inductive KeyError where
  | keyError (key : String)
deriving DecidableEq, Repr

/-- Modelled from the tests' usage (src/tests/test_runner.py, `_interrupt`):
reading a key inside a record raises a key error when the key has never been
written, rather than returning a default. -/
def recordRead (r : Record) (k : String) : Except KeyError Value :=
  match alistLookup r k with
  | some v => Except.ok v
  | none => Except.error (KeyError.keyError k)

/-- Claim C10: `SharedMemory.get(name)` auto-creates an empty record on
first access (the returned record is empty and subsequent lookups of the
name find it), but reading a key that has never been written inside the
record raises a key error rather than returning a default. -/
theorem claim_C10 (reg : Registry) (name k : String)
    (hfresh : alistLookup reg name = none) :
    (smGet reg name).1 = []
    ∧ alistLookup (smGet reg name).2 name = some ([] : Record)
    ∧ recordRead (smGet reg name).1 k = Except.error (KeyError.keyError k) := by
  refine ⟨?_, ?_, ?_⟩ <;> simp [smGet, hfresh, alistLookup, recordRead]

/-- Witness for claim C10 on the empty registry. -/
theorem claim_C10_witness :
    (smGet [] "test").1 = []
    ∧ alistLookup (smGet [] "test").2 "test" = some ([] : Record)
    ∧ recordRead (smGet [] "test").1 "interrupt"
        = Except.error (KeyError.keyError "interrupt") :=
  claim_C10 [] "test" "interrupt" rfl

/-! ## Manager reconciliation (claim C2) -/

/-- Modelled from the spec: the stop request as seen by a runner's lifecycle
— a live runner moves to `stopping`; `stop` while `off` is ignored. -/
def stopTransition : State → State
  | State.off => State.off
  | _ => State.stopping

/-- Modelled from the spec: one manager reconciliation tick over the live
set, keyed by name.  Removed runners that have reached `off` are released;
still-removed live runners are stopped; declared runners in `error` are
revived (back to `starting`); added names are instantiated and started
(entering `starting`). -/
def reconcile (decl : List String) (live : List (String × State)) : List (String × State) :=
  let kept := live.filter (fun p => decl.contains p.1 || !(p.2 == State.off))
  let stepped := kept.map (fun p =>
    if decl.contains p.1 then
      (if p.2 == State.error then (p.1, State.starting) else p)
    else (p.1, stopTransition p.2))
  stepped ++ (decl.filter (fun n => !((stepped.map Prod.fst).contains n))).map
    (fun n => (n, State.starting))

/-- Modelled from the spec: between manager ticks every live runner advances
one step of its own loop — a `starting` runner completes its first successful
iterate (reaching `running`) and a `stopping` runner's loop exits (reaching
`off`); other states are stable on their own. -/
def advanceRunners (live : List (String × State)) : List (String × State) :=
  live.map (fun p =>
    match p.2 with
    | State.starting => (p.1, State.running)
    | State.stopping => (p.1, State.off)
    | s => (p.1, s))

/-- One manager control-loop tick followed by the runners' own progress. -/
def managerStep (decl : List String) (live : List (String × State)) : List (String × State) :=
  advanceRunners (reconcile decl live)

/-- Claim C2: starting the manager with declaration `{r1, r2}` brings both
runners to `running`; after the declaration is replaced by `{r1, r3}`, `r2`
reaches `off` and `r3` reaches `running` while `r1` stays `running`
undisturbed at every tick; restoring `r2` to the declaration brings it back
to `running` (with `r1` and `r3` still `running`). -/
theorem claim_C2 :
    (alistLookup (managerStep ["runner1", "runner2"] []) "runner1" = some State.running
      ∧ alistLookup (managerStep ["runner1", "runner2"] []) "runner2" = some State.running)
    ∧ (alistLookup
          (managerStep ["runner1", "runner3"] (managerStep ["runner1", "runner2"] []))
          "runner1" = some State.running
      ∧ alistLookup
          (managerStep ["runner1", "runner3"] (managerStep ["runner1", "runner2"] []))
          "runner2" = some State.off
      ∧ alistLookup
          (managerStep ["runner1", "runner3"] (managerStep ["runner1", "runner2"] []))
          "runner3" = some State.running)
    ∧ (alistLookup
          (managerStep ["runner1", "runner3"]
            (managerStep ["runner1", "runner3"] (managerStep ["runner1", "runner2"] [])))
          "runner1" = some State.running
      ∧ alistLookup
          (managerStep ["runner1", "runner3"]
            (managerStep ["runner1", "runner3"] (managerStep ["runner1", "runner2"] [])))
          "runner3" = some State.running)
    ∧ (alistLookup
          (managerStep ["runner1", "runner2", "runner3"]
            (managerStep ["runner1", "runner3"]
              (managerStep ["runner1", "runner3"] (managerStep ["runner1", "runner2"] []))))
          "runner1" = some State.running
      ∧ alistLookup
          (managerStep ["runner1", "runner2", "runner3"]
            (managerStep ["runner1", "runner3"]
              (managerStep ["runner1", "runner3"] (managerStep ["runner1", "runner2"] []))))
          "runner2" = some State.running
      ∧ alistLookup
          (managerStep ["runner1", "runner2", "runner3"]
            (managerStep ["runner1", "runner3"]
              (managerStep ["runner1", "runner3"] (managerStep ["runner1", "runner2"] []))))
          "runner3" = some State.running) := by
  decide

/-! ## Variable interpolation in config files (claim C7) -/

/-- Strip leading and trailing spaces from a raw character sequence. -/
def trimSpaces (cs : List Char) : List Char :=
  ((cs.dropWhile (fun c => c == ' ')).reverse.dropWhile (fun c => c == ' ')).reverse

/-- Scan a raw character sequence for the closing `\x7d\x7d` of a
placeholder, splitting it into the placeholder body and the remainder. -/
def splitAtClose : List Char → Option (List Char × List Char)
  | [] => none
  | '\x7d' :: '\x7d' :: rest => some ([], rest)
  | c :: rest => (splitAtClose rest).map (fun p => (c :: p.1, p.2))

/-- Modelled from the spec: the literal textual form a variable's scalar
value takes when spliced into the raw file text — string scalars are
substituted literally, other scalars stringify to their literal form. -/
def scalarLiteral : Value → List Char
  | .vstr s => s.data
  | .vint n => (toString n).data
  | .vbool b => if b then "true".data else "false".data
  | _ => []

/-- Recognize a `\x7b\x7b name \x7d\x7d` placeholder at the head of the raw
text; on success return the spliced literal and the remaining text. -/
def matchPlaceholder (vars : List (String × Value)) : List Char → Option (List Char × List Char)
  | '\x7b' :: '\x7b' :: rest =>
      match splitAtClose rest with
      | some (inner, rem) =>
          match alistLookup vars (String.mk (trimSpaces inner)) with
          | some v => some (scalarLiteral v, rem)
          | none => none
      | none => none
  | _ => none

/-- Fuel-indexed scan of the raw text, replacing each placeholder
occurrence. -/
def substAux (vars : List (String × Value)) : Nat → List Char → List Char
  | 0, text => text
  | _ + 1, [] => []
  | fuel + 1, c :: rest =>
      match matchPlaceholder vars (c :: rest) with
      | some (lit, rem) => lit ++ substAux vars fuel rem
      | none => c :: substAux vars fuel rest

/-- Modelled from the spec: when a variables source is supplied, the raw
file text is rewritten by replacing each occurrence of `\x7b\x7b name \x7d\x7d`
with the scalar value bound to `name` before parsing. -/
def substVars (vars : List (String × Value)) (text : List Char) : List Char :=
  substAux vars text.length text

/-- Modelled from the spec: the raw text of a configuration file before
scalar parsing — the TOML key skeleton with each scalar still in raw textual
form. -/
inductive RawCfg where
  | leaf (raw : List Char)
  | node (kvs : List (String × RawCfg))

mutual
/-- Apply variable substitution to every raw scalar of the file text. -/
def substCfg (vars : List (String × Value)) : RawCfg → RawCfg
  | .leaf raw => .leaf (substVars vars raw)
  | .node kvs => .node (substCfgEntries vars kvs)

/-- Apply variable substitution below every key of a raw section. -/
def substCfgEntries (vars : List (String × Value)) :
    List (String × RawCfg) → List (String × RawCfg)
  | [] => []
  | (k, c) :: rest => (k, substCfg vars c) :: substCfgEntries vars rest
end

/-- Numeric value of a digit sequence. -/
def digitsVal (cs : List Char) : Nat :=
  cs.foldl (fun acc c => acc * 10 + (c.toNat - Char.toNat '0')) 0

/-- Modelled from the spec: parsing one raw scalar after substitution — a
quoted literal parses to a string value and a (possibly negative) digit
sequence to an integer value, so a placeholder may resolve to a non-string
value. -/
def parseScalar (cs : List Char) : Option Value :=
  match cs with
  | '\x22' :: rest =>
      match rest.reverse with
      | '\x22' :: mid => some (.vstr (String.mk mid.reverse))
      | _ => none
  | '-' :: rest =>
      if !rest.isEmpty && rest.all Char.isDigit then
        some (.vint (-(digitsVal rest : Int)))
      else none
  | _ =>
      if !cs.isEmpty && cs.all Char.isDigit then
        some (.vint (digitsVal cs))
      else none

mutual
/-- Parse a raw configuration tree into a configuration value. -/
def parseCfg : RawCfg → Option Value
  | .leaf raw => parseScalar raw
  | .node kvs => (parseCfgEntries kvs).map Value.vmap

/-- Parse every entry of a raw section. -/
def parseCfgEntries : List (String × RawCfg) → Option (List (String × Value))
  | [] => some []
  | (k, c) :: rest =>
      match parseCfg c, parseCfgEntries rest with
      | some v, some vs => some ((k, v) :: vs)
      | _, _ => none
end

/-- Modelled from the spec: a static file-backed Provider configured with a
variables source — substitute each placeholder occurrence in the raw file
text, then parse. -/
def getWithVars (vars : List (String × Value)) (raw : RawCfg) : Option Value :=
  parseCfg (substCfg vars raw)

/-- Claim C7: each placeholder in the raw file text is replaced before
parsing, so a placeholder may resolve to a non-string value: variables
`value1 = 1`, `value2 = "\x22v2\x22"` (a quoted literal), `value3 = 3`
applied to the config whose raw scalars are `t11 = 11`,
`t12 = \x7b\x7b value1 \x7d\x7d`, `t2 = \x7b\x7b value2 \x7d\x7d`,
`t3 = \x7b\x7b value3 \x7d\x7d`, `t4 = 4` yield
`{t1: {t11: 11, t12: 1}, t2: "v2", t3: 3, t4: 4}` — the integers 1 and 3
replacing what were string fields. -/
theorem claim_C7 :
    getWithVars
      [("value1", .vint 1), ("value2", .vstr "\x22v2\x22"), ("value3", .vint 3)]
      (.node
        [("t1", .node
            [("t11", .leaf "11".data),
             ("t12", .leaf "\x7b\x7b value1 \x7d\x7d".data)]),
         ("t2", .leaf "\x7b\x7b value2 \x7d\x7d".data),
         ("t3", .leaf "\x7b\x7b value3 \x7d\x7d".data),
         ("t4", .leaf "4".data)])
    = some (.vmap
        [("t1", .vmap [("t11", .vint 11), ("t12", .vint 1)]),
         ("t2", .vstr "v2"), ("t3", .vint 3), ("t4", .vint 4)]) := by
  rfl

/-! ## Structural configuration comparator (claim C3) -/

mutual
/-- Modelled from the spec: the structural comparator over nested
configuration mappings (`compare_kwargs`).  Mappings are equal when they
have the same number of keys and every entry of the first is found in the
second with a structurally equal value; sequences are compared pointwise;
partially-applied callables compare equal exactly when their target and
bound-prefix arguments are equal; scalars compare by equality; differing
shapes compare unequal. -/
def compare_kwargs : Value → Value → Bool
  | .vint a, .vint b => a == b
  | .vstr a, .vstr b => a == b
  | .vbool a, .vbool b => a == b
  | .vseq xs, .vseq ys => compareList xs ys
  | .vmap xs, .vmap ys => xs.length == ys.length && compareEntries xs ys
  | .vcall f a, .vcall g b => f == g && compareList a b
  | _, _ => false

/-- Pointwise comparison of two sequences (unequal lengths compare false). -/
def compareList : List Value → List Value → Bool
  | [], [] => true
  | x :: xs, y :: ys => compare_kwargs x y && compareList xs ys
  | _, _ => false

/-- Each entry of the first mapping must be found in the second with a
structurally equal value. -/
def compareEntries : List (String × Value) → List (String × Value) → Bool
  | [], _ => true
  | (k, v) :: rest, ys =>
      (match alistLookup ys k with
       | some w => compare_kwargs v w
       | none => false) && compareEntries rest ys
end

/-- The specification's reading of structural configuration equality: keys
and leaves match structurally, recursing into nested mappings (the two maps
bind the same keys, with structurally matching values) and sequences
(pointwise), with partially-applied callables matching exactly when their
target and bound-prefix arguments match. -/
inductive SpecEq : Value → Value → Prop where
  | int (n : Int) : SpecEq (.vint n) (.vint n)
  | str (s : String) : SpecEq (.vstr s) (.vstr s)
  | bool (b : Bool) : SpecEq (.vbool b) (.vbool b)
  | seq {xs ys : List Value} (h : List.Forall₂ SpecEq xs ys) :
      SpecEq (.vseq xs) (.vseq ys)
  | map {xs ys : List (String × Value)}
      (hkeys : ∀ k, (alistLookup xs k).isSome ↔ (alistLookup ys k).isSome)
      (hvals : ∀ k v w, alistLookup xs k = some v → alistLookup ys k = some w → SpecEq v w) :
      SpecEq (.vmap xs) (.vmap ys)
  | call (t : String) {xs ys : List Value} (h : List.Forall₂ SpecEq xs ys) :
      SpecEq (.vcall t xs) (.vcall t ys)

/-- Whether a list of keys is duplicate-free. -/
def keysDistinct : List String → Bool
  | [] => true
  | k :: rest => !(decide (k ∈ rest)) && keysDistinct rest

mutual
/-- A configuration value is well formed when no mapping in it binds the
same key twice (Python dictionaries cannot). -/
def wfKeys : Value → Bool
  | .vint _ => true
  | .vstr _ => true
  | .vbool _ => true
  | .vseq xs => wfKeysList xs
  | .vmap kvs => keysDistinct (kvs.map Prod.fst) && wfKeysEntries kvs
  | .vcall _ xs => wfKeysList xs

/-- Well-formedness of every element of a sequence. -/
def wfKeysList : List Value → Bool
  | [] => true
  | x :: xs => wfKeys x && wfKeysList xs

/-- Well-formedness of every value of a mapping. -/
def wfKeysEntries : List (String × Value) → Bool
  | [] => true
  | (_, v) :: rest => wfKeys v && wfKeysEntries rest
end

theorem one_le_sizeOf_value (a : Value) : 1 ≤ sizeOf a := by
  cases a <;> simp_arith

theorem alistLookup_isSome_iff_mem {α : Type} (l : List (String × α)) (k : String) :
    (alistLookup l k).isSome = true ↔ k ∈ l.map Prod.fst := by
  induction l with
  | nil => simp [alistLookup]
  | cons p rest ih =>
      obtain ⟨k', v⟩ := p
      by_cases h : k' = k
      · subst h
        simp [alistLookup]
      · simp [alistLookup, h, ih, Ne.symm h]

theorem alistLookup_mem {α : Type} : ∀ {l : List (String × α)} {k : String} {v : α},
    alistLookup l k = some v → (k, v) ∈ l := by
  intro l
  induction l with
  | nil => intro k v h; simp [alistLookup] at h
  | cons p rest ih =>
      intro k v h
      obtain ⟨k', w⟩ := p
      by_cases hk : k' = k
      · subst hk
        simp [alistLookup] at h
        subst h
        exact List.mem_cons_self _ _
      · simp [alistLookup, hk] at h
        exact List.mem_cons_of_mem _ (ih h)

theorem mem_alistLookup {α : Type} : ∀ {l : List (String × α)} {k : String} {v : α},
    keysDistinct (l.map Prod.fst) = true → (k, v) ∈ l → alistLookup l k = some v := by
  intro l
  induction l with
  | nil => intro k v _ h; simp at h
  | cons p rest ih =>
      intro k v hd hm
      obtain ⟨k', w⟩ := p
      have hd' : ¬ (k' ∈ rest.map Prod.fst) ∧ keysDistinct (rest.map Prod.fst) = true := by
        simpa [keysDistinct, Bool.and_eq_true] using hd
      rcases List.mem_cons.mp hm with heq | hmem
      · injection heq with h1 h2
        subst h1
        subst h2
        simp [alistLookup]
      · by_cases hk : k' = k
        · subst hk
          exact absurd (List.mem_map.mpr ⟨(k', v), hmem, rfl⟩) hd'.1
        · simp only [alistLookup, if_neg hk]
          exact ih hd'.2 hmem

theorem keysDistinct_iff_nodup : ∀ (l : List String), keysDistinct l = true ↔ l.Nodup := by
  intro l
  induction l with
  | nil => simp [keysDistinct]
  | cons k rest ih => simp [keysDistinct, ih, List.nodup_cons]

theorem wfKeysList_mem : ∀ {xs : List Value}, wfKeysList xs = true →
    ∀ {x : Value}, x ∈ xs → wfKeys x = true := by
  intro xs
  induction xs with
  | nil => intro _ x hx; simp at hx
  | cons y ys ih =>
      intro h x hx
      simp only [wfKeysList, Bool.and_eq_true] at h
      rcases List.mem_cons.mp hx with rfl | hx'
      · exact h.1
      · exact ih h.2 hx'

theorem wfKeysEntries_mem : ∀ {xs : List (String × Value)}, wfKeysEntries xs = true →
    ∀ {k : String} {v : Value}, (k, v) ∈ xs → wfKeys v = true := by
  intro xs
  induction xs with
  | nil => intro _ k v hx; simp at hx
  | cons p rest ih =>
      intro h k v hx
      obtain ⟨k', w⟩ := p
      simp only [wfKeysEntries, Bool.and_eq_true] at h
      rcases List.mem_cons.mp hx with heq | hx'
      · injection heq with h1 h2
        subst h2
        exact h.1
      · exact ih h.2 hx'

theorem forall2_imp_mem {α β : Type} {R S : α → β → Prop} {xs : List α} {ys : List β}
    (hf : List.Forall₂ R xs ys)
    (h : ∀ x y, x ∈ xs → y ∈ ys → R x y → S x y) : List.Forall₂ S xs ys := by
  revert h
  induction hf with
  | nil => intro _; exact List.Forall₂.nil
  | cons hr _ ih =>
      intro h
      exact List.Forall₂.cons (h _ _ (List.mem_cons_self _ _) (List.mem_cons_self _ _) hr)
        (ih (fun x y hx hy hr' =>
          h x y (List.mem_cons_of_mem _ hx) (List.mem_cons_of_mem _ hy) hr'))

theorem compareList_iff : ∀ (xs ys : List Value),
    compareList xs ys = true ↔ List.Forall₂ (fun a b => compare_kwargs a b = true) xs ys := by
  intro xs
  induction xs with
  | nil =>
      intro ys
      cases ys <;> simp [compareList]
  | cons x xs ih =>
      intro ys
      cases ys with
      | nil => simp [compareList]
      | cons y ys => simp [compareList, Bool.and_eq_true, ih, List.forall₂_cons]

theorem compareEntries_cons (k : String) (v : Value) (rest ys : List (String × Value)) :
    compareEntries ((k, v) :: rest) ys = true ↔
      (∃ w, alistLookup ys k = some w ∧ compare_kwargs v w = true)
      ∧ compareEntries rest ys = true := by
  cases hly : alistLookup ys k with
  | none => simp [compareEntries, hly]
  | some w => simp [compareEntries, hly]

theorem compareEntries_iff : ∀ (xs ys : List (String × Value)),
    compareEntries xs ys = true ↔
      ∀ p ∈ xs, ∃ w, alistLookup ys p.1 = some w ∧ compare_kwargs p.2 w = true := by
  intro xs ys
  induction xs with
  | nil => simp [compareEntries]
  | cons p rest ih =>
      obtain ⟨k, v⟩ := p
      rw [compareEntries_cons, ih]
      constructor
      · rintro ⟨⟨w, hw, hc⟩, hrest⟩ q hq
        rcases List.mem_cons.mp hq with rfl | hq'
        · exact ⟨w, hw, hc⟩
        · exact hrest q hq'
      · intro h
        exact ⟨h (k, v) (List.mem_cons_self _ _),
          fun q hq => h q (List.mem_cons_of_mem _ hq)⟩

theorem compare_iff_specEq_aux :
    ∀ (n : Nat) (a b : Value), sizeOf a ≤ n → wfKeys a = true → wfKeys b = true →
      (compare_kwargs a b = true ↔ SpecEq a b) := by
  intro n
  induction n with
  | zero =>
      intro a b hsize ha hb
      have := one_le_sizeOf_value a
      omega
  | succ n ih =>
      intro a b hsize ha hb
      cases a <;> cases b
      case vint.vint m m' =>
        constructor
        · intro h
          have hm : m = m' := by simpa [compare_kwargs] using h
          subst hm
          exact SpecEq.int m
        · intro h
          cases h
          simp [compare_kwargs]
      case vstr.vstr s s' =>
        constructor
        · intro h
          have hs : s = s' := by simpa [compare_kwargs] using h
          subst hs
          exact SpecEq.str s
        · intro h
          cases h
          simp [compare_kwargs]
      case vbool.vbool x y =>
        constructor
        · intro h
          have hx : x = y := by simpa [compare_kwargs] using h
          subst hx
          exact SpecEq.bool x
        · intro h
          cases h
          simp [compare_kwargs]
      case vseq.vseq xs ys =>
        have hxs : wfKeysList xs = true := by simpa [wfKeys] using ha
        have hys : wfKeysList ys = true := by simpa [wfKeys] using hb
        have helem : ∀ x ∈ xs, ∀ y ∈ ys, (compare_kwargs x y = true ↔ SpecEq x y) := by
          intro x hx y hy
          refine ih x y ?_ (wfKeysList_mem hxs hx) (wfKeysList_mem hys hy)
          have h1 := List.sizeOf_lt_of_mem hx
          have h2 : sizeOf (Value.vseq xs) = 1 + sizeOf xs := by simp
          omega
        constructor
        · intro h
          have hl : compareList xs ys = true := by simpa [compare_kwargs] using h
          exact SpecEq.seq (forall2_imp_mem ((compareList_iff xs ys).mp hl)
            (fun x y hx hy hxy => (helem x hx y hy).mp hxy))
        · intro h
          cases h with
          | seq hf =>
            have hl : compareList xs ys = true :=
              (compareList_iff xs ys).mpr (forall2_imp_mem hf
                (fun x y hx hy hxy => (helem x hx y hy).mpr hxy))
            simpa [compare_kwargs] using hl
      case vcall.vcall t xs t' ys =>
        have hxs : wfKeysList xs = true := by simpa [wfKeys] using ha
        have hys : wfKeysList ys = true := by simpa [wfKeys] using hb
        have helem : ∀ x ∈ xs, ∀ y ∈ ys, (compare_kwargs x y = true ↔ SpecEq x y) := by
          intro x hx y hy
          refine ih x y ?_ (wfKeysList_mem hxs hx) (wfKeysList_mem hys hy)
          have h1 := List.sizeOf_lt_of_mem hx
          have h2 : sizeOf (Value.vcall t xs) = 1 + sizeOf t + sizeOf xs := by simp
          omega
        constructor
        · intro h
          have h' : t = t' ∧ compareList xs ys = true := by
            simpa [compare_kwargs, Bool.and_eq_true] using h
          obtain ⟨rfl, hl⟩ := h'
          exact SpecEq.call t (forall2_imp_mem ((compareList_iff xs ys).mp hl)
            (fun x y hx hy hxy => (helem x hx y hy).mp hxy))
        · intro h
          cases h with
          | call _ hf =>
            have hl : compareList xs ys = true :=
              (compareList_iff xs ys).mpr (forall2_imp_mem hf
                (fun x y hx hy hxy => (helem x hx y hy).mpr hxy))
            simp [compare_kwargs, hl]
      case vmap.vmap xs ys =>
        have hax : keysDistinct (xs.map Prod.fst) = true ∧ wfKeysEntries xs = true := by
          simpa [wfKeys, Bool.and_eq_true] using ha
        have hay : keysDistinct (ys.map Prod.fst) = true ∧ wfKeysEntries ys = true := by
          simpa [wfKeys, Bool.and_eq_true] using hb
        obtain ⟨hdx, hex⟩ := hax
        obtain ⟨hdy, hey⟩ := hay
        have hIH : ∀ k v w, (k, v) ∈ xs → (k, w) ∈ ys →
            (compare_kwargs v w = true ↔ SpecEq v w) := by
          intro k v w hv hw
          refine ih v w ?_ (wfKeysEntries_mem hex hv) (wfKeysEntries_mem hey hw)
          have h1 := List.sizeOf_lt_of_mem hv
          have h2 : sizeOf (k, v) = 1 + sizeOf k + sizeOf v := by simp
          have h3 : sizeOf (Value.vmap xs) = 1 + sizeOf xs := by simp
          omega
        constructor
        · intro h
          have h' : xs.length = ys.length ∧ compareEntries xs ys = true := by
            simpa [compare_kwargs, Bool.and_eq_true] using h
          obtain ⟨hlen, hent⟩ := h'
          have hent' := (compareEntries_iff xs ys).mp hent
          have hsubset : (xs.map Prod.fst) ⊆ (ys.map Prod.fst) := by
            intro k hk
            rw [← alistLookup_isSome_iff_mem] at hk ⊢
            obtain ⟨v, hv⟩ := Option.isSome_iff_exists.mp hk
            obtain ⟨w, hw, -⟩ := hent' (k, v) (alistLookup_mem hv)
            simp [hw]
          have hperm : (xs.map Prod.fst).Perm (ys.map Prod.fst) := by
            refine List.Subperm.perm_of_length_le
              (List.subperm_of_subset ((keysDistinct_iff_nodup _).mp hdx) hsubset) ?_
            simp [hlen]
          have hkeys : ∀ k, (alistLookup xs k).isSome ↔ (alistLookup ys k).isSome := by
            intro k
            rw [alistLookup_isSome_iff_mem, alistLookup_isSome_iff_mem]
            exact hperm.mem_iff
          refine SpecEq.map hkeys ?_
          intro k v w hv hw
          obtain ⟨w', hw', hcmp⟩ := hent' (k, v) (alistLookup_mem hv)
          rw [hw] at hw'
          injection hw' with hww
          subst hww
          exact (hIH k v _ (alistLookup_mem hv) (alistLookup_mem hw)).mp hcmp
        · intro h
          cases h with
          | map hkeys hvals =>
            have hmemiff : ∀ k, k ∈ xs.map Prod.fst ↔ k ∈ ys.map Prod.fst := by
              intro k
              rw [← alistLookup_isSome_iff_mem, ← alistLookup_isSome_iff_mem]
              exact hkeys k
            have hperm : (xs.map Prod.fst).Perm (ys.map Prod.fst) :=
              (List.perm_ext_iff_of_nodup ((keysDistinct_iff_nodup _).mp hdx)
                ((keysDistinct_iff_nodup _).mp hdy)).mpr hmemiff
            have hlen : xs.length = ys.length := by
              simpa using hperm.length_eq
            have hent : compareEntries xs ys = true := by
              rw [compareEntries_iff]
              intro p hp
              obtain ⟨k, v⟩ := p
              have hv : alistLookup xs k = some v := mem_alistLookup hdx hp
              have hys' : (alistLookup ys k).isSome = true := (hkeys k).mp (by simp [hv])
              obtain ⟨w, hw⟩ := Option.isSome_iff_exists.mp hys'
              exact ⟨w, hw, (hIH k v w hp (alistLookup_mem hw)).mpr (hvals k v w hv hw)⟩
            simp [compare_kwargs, hlen, hent]
      all_goals exact iff_of_false (fun h => nomatch h) (fun h => nomatch h)

/-- Claim C3: for every pair of nested configuration mappings (well formed in
that no mapping binds the same key twice, as Python dictionaries cannot), the
structural comparator returns true iff their keys and leaves match
structurally, recursing into nested mappings and sequences, with
partially-applied callables comparing equal exactly when their target and
bound-prefix arguments are equal; consequently any single differing scalar,
added key, removed key, or sequence length change makes it return false,
since each of those breaks the structural match. -/
theorem claim_C3 (a b : Value) (ha : wfKeys a = true) (hb : wfKeys b = true) :
    compare_kwargs a b = true ↔ SpecEq a b :=
  compare_iff_specEq_aux (sizeOf a) a b (Nat.le_refl _) ha hb

/-- Witness for claim C3: two concrete mappings binding the same keys (in a
different order) to matching leaves, including a partially-applied callable
and a nested sequence; the comparator accepts them and the structural match
holds. -/
theorem claim_C3_witness :
    (compare_kwargs
        (Value.vmap [("1", .vint 1),
          ("2", .vmap [("2", .vint 2), ("f", .vcall "f1" [.vstr "p11"]),
            ("3", .vseq [.vint 1, .vint 2, .vcall "f1" [.vstr "p11"]])]),
          ("3", .vcall "f1" [])])
        (Value.vmap [("3", .vcall "f1" []), ("1", .vint 1),
          ("2", .vmap [("2", .vint 2), ("f", .vcall "f1" [.vstr "p11"]),
            ("3", .vseq [.vint 1, .vint 2, .vcall "f1" [.vstr "p11"]])])])
      = true
      ↔ SpecEq
        (Value.vmap [("1", .vint 1),
          ("2", .vmap [("2", .vint 2), ("f", .vcall "f1" [.vstr "p11"]),
            ("3", .vseq [.vint 1, .vint 2, .vcall "f1" [.vstr "p11"]])]),
          ("3", .vcall "f1" [])])
        (Value.vmap [("3", .vcall "f1" []), ("1", .vint 1),
          ("2", .vmap [("2", .vint 2), ("f", .vcall "f1" [.vstr "p11"]),
            ("3", .vseq [.vint 1, .vint 2, .vcall "f1" [.vstr "p11"]])])])) :=
  claim_C3
    (Value.vmap [("1", .vint 1),
      ("2", .vmap [("2", .vint 2), ("f", .vcall "f1" [.vstr "p11"]),
        ("3", .vseq [.vint 1, .vint 2, .vcall "f1" [.vstr "p11"]])]),
      ("3", .vcall "f1" [])])
    (Value.vmap [("3", .vcall "f1" []), ("1", .vint 1),
      ("2", .vmap [("2", .vint 2), ("f", .vcall "f1" [.vstr "p11"]),
        ("3", .vseq [.vint 1, .vint 2, .vcall "f1" [.vstr "p11"]])])])
    (by rfl) (by rfl)

end NightSkyRunner
